import Mathlib

/-!
Shallow embedding of the raindrop-mcp mediation layer (src/index.ts) and
verification of its specified properties.

The embedding models JSON values as an inductive type, JavaScript objects as
association lists in insertion order, the process-wide watch-cursor `Map` as an
association list with `Map.set` semantics, and every remote interaction by
passing the fetched data in as an argument and returning the list of remote
calls the operation issues.  Timestamps are modelled as integers (epoch
milliseconds), matching the numeric comparison that `Date` objects undergo
under `<` / `>` in JavaScript.
-/

/-- JSON values, as produced by parsing an API response body. -/
inductive Json where
  | null : Json
  | bool : Bool → Json
  | num : Int → Json
  | str : String → Json
  | arr : List Json → Json
  | obj : List (String × Json) → Json

/-- A JavaScript object: keys with values, in insertion order (keys unique in
any object produced by the modelled code). -/
abbrev JsObject := List (String × Json)

/-! ## Title cleaning (src/index.ts, `cleanTitle` / `cleanTitlesInData`) -/

/-- JavaScript `String.prototype.trim`, leading part: drop leading whitespace
(list level). -/
def trimLeftList (l : List Char) : List Char :=
  l.dropWhile Char.isWhitespace

/-- JavaScript `String.prototype.trim`: drop leading and trailing whitespace
(list level). -/
def trimList (l : List Char) : List Char :=
  ((trimLeftList l).reverse.dropWhile Char.isWhitespace).reverse

/-- The call `title.trim()` of `cleanTitle`. -/
def trimStr (s : String) : String :=
  ⟨trimList s.data⟩

/-- JavaScript `s.startsWith(c)` for a single-character prefix. -/
def startsWithChar (s : String) (c : Char) : Bool :=
  s.data.head? == some c

/-- JavaScript `s.endsWith(c)` for a single-character suffix. -/
def endsWithChar (s : String) (c : Char) : Bool :=
  s.data.getLast? == some c

/-- The quote test of `cleanTitle`:
`(cleaned.startsWith('"') && cleaned.endsWith('"')) ||
 (cleaned.startsWith("'") && cleaned.endsWith("'"))`. -/
def hasEnclosingQuotes (s : String) : Bool :=
  (startsWithChar s '"' && endsWithChar s '"') ||
  (startsWithChar s '\'' && endsWithChar s '\'')

/-- Source function `cleanTitle`: trim whitespace, then strip one layer of matching enclosing
quotes (`cleaned.slice(1, -1)`) when both ends match. -/
def cleanTitle (title : String) : String :=
  let cleaned := trimStr title
  if hasEnclosingQuotes cleaned then ⟨(cleaned.data.drop 1).dropLast⟩ else cleaned

mutual

/-- Source function `cleanTitlesInData`: recursively walk a JSON value; primitives pass
through, arrays map elementwise, objects are rebuilt entry by entry. -/
def cleanTitlesInData : Json → Json
  | .null => .null
  | .bool b => .bool b
  | .num n => .num n
  | .str s => .str s
  | .arr l => .arr (cleanList l)
  | .obj o => .obj (cleanObj o)

/-- Elementwise `cleanTitlesInData` over a JSON array
(`data.map(item => cleanTitlesInData(item))`). -/
def cleanList : List Json → List Json
  | [] => []
  | x :: xs => cleanTitlesInData x :: cleanList xs

/-- The `for (const [key, value] of Object.entries(data))` loop of
`cleanTitlesInData`. -/
def cleanObj : List (String × Json) → List (String × Json)
  | [] => []
  | (k, v) :: rest => (k, cleanEntryVal k v) :: cleanObj rest

/-- One entry of the loop body: a string under key `"title"` is cleaned,
objects and arrays (`typeof value === "object" && value !== null`) recurse,
everything else is copied unchanged. -/
def cleanEntryVal (k : String) (v : Json) : Json :=
  match v with
  | .str s => if k = "title" then .str (cleanTitle s) else .str s
  | .arr l => .arr (cleanList l)
  | .obj o => .obj (cleanObj o)
  | v => v

end

mutual

/-- No string stored under a `"title"` key anywhere in the value still has
matching enclosing quotes after trimming. -/
def titlesUnquoted : Json → Bool
  | .arr l => titlesUnquotedList l
  | .obj o => titlesUnquotedObj o
  | _ => true

/-- Predicate `titlesUnquoted` over a JSON array. -/
def titlesUnquotedList : List Json → Bool
  | [] => true
  | x :: xs => titlesUnquoted x && titlesUnquotedList xs

/-- Predicate `titlesUnquoted` over the entries of a JSON object. -/
def titlesUnquotedObj : List (String × Json) → Bool
  | [] => true
  | (k, v) :: rest => titlesUnquotedEntry k v && titlesUnquotedObj rest

/-- Predicate `titlesUnquoted` for a single object entry. -/
def titlesUnquotedEntry (k : String) (v : Json) : Bool :=
  match v with
  | .str s => if k = "title" then !hasEnclosingQuotes (trimStr s) else true
  | .arr l => titlesUnquotedList l
  | .obj o => titlesUnquotedObj o
  | _ => true

end

mutual

/-- Shape skeleton of a JSON value: every string stored under a `"title"` key
is replaced by the empty string, everything else is kept verbatim.  Two values
have equal skeletons exactly when they agree everywhere except possibly at
string values under `"title"` keys. -/
def eraseTitles : Json → Json
  | .null => .null
  | .bool b => .bool b
  | .num n => .num n
  | .str s => .str s
  | .arr l => .arr (eraseList l)
  | .obj o => .obj (eraseObj o)

/-- Skeleton `eraseTitles` over a JSON array. -/
def eraseList : List Json → List Json
  | [] => []
  | x :: xs => eraseTitles x :: eraseList xs

/-- Skeleton `eraseTitles` over the entries of a JSON object. -/
def eraseObj : List (String × Json) → List (String × Json)
  | [] => []
  | (k, v) :: rest => (k, eraseEntryVal k v) :: eraseObj rest

/-- Skeleton `eraseTitles` for a single object entry. -/
def eraseEntryVal (k : String) (v : Json) : Json :=
  match v with
  | .str s => if k = "title" then .str "" else .str s
  | .arr l => .arr (eraseList l)
  | .obj o => .obj (eraseObj o)
  | v => v

end

/-! ## Field projection (src/index.ts, `resolveFieldList` / `filterObjectFields`
/ `filterFields` / `filterApiResponse`) -/

/-- JavaScript object/Map assignment `m[k] = v` (resp. `m.set(k, v)` and the
spread `{...m, k: v}`): overwrite in place when the key is already present,
append at the end otherwise. -/
def assocSet {α β : Type} [BEq α] (m : List (α × β)) (k : α) (v : β) : List (α × β) :=
  if (m.lookup k).isSome then m.map (fun kv => if kv.1 == k then (k, v) else kv)
  else m ++ [(k, v)]

/-- The `FieldPreset` union type (`keyof typeof FIELD_PRESETS`). -/
inductive FieldPreset where
  | minimal | basic | standard | media | organization | metadata
  deriving DecidableEq

/-- The `FIELD_PRESETS` table, copied verbatim. -/
def FIELD_PRESETS : FieldPreset → List String
  | .minimal => ["_id", "link", "title"]
  | .basic => ["_id", "link", "title", "excerpt", "tags", "created", "domain"]
  | .standard => ["_id", "link", "title", "excerpt", "note", "tags", "type", "cover",
      "created", "lastUpdate", "domain", "important"]
  | .media => ["_id", "link", "title", "cover", "media", "type", "file"]
  | .organization => ["_id", "title", "tags", "collection", "collectionId", "sort", "removed"]
  | .metadata => ["_id", "created", "lastUpdate", "creatorRef", "user", "broken", "cache"]

/-- Source type `FieldFilter = string[] | FieldPreset`. -/
inductive FieldFilter where
  | preset : FieldPreset → FieldFilter
  | list : List String → FieldFilter

/-- Source function `resolveFieldList`: a preset name resolves to its fixed field list, an
explicit list is used verbatim. -/
def resolveFieldList : FieldFilter → List String
  | .preset p => FIELD_PRESETS p
  | .list l => l

/-- Source function `filterObjectFields`: empty field list gives the empty object, otherwise
copy `obj[field]` for each field of the list that is present in the record,
in field-list order, into a fresh object. -/
def filterObjectFields (obj : JsObject) (fieldList : List String) : JsObject :=
  if fieldList.isEmpty then []
  else fieldList.foldl (fun acc field =>
    match obj.lookup field with
    | some v => assocSet acc field v
    | none => acc) []

/-- The test `typeof v === "object" && v !== null` (arrays are objects in
JavaScript). -/
def isJsObject : Json → Bool
  | .arr _ => true
  | .obj _ => true
  | _ => false

/-- One array element inside `filterFields`: records are projected; any other
element is outside the declared type `T extends Record<string, unknown>` (the
source would fault on `field in obj` there) and is modelled as unchanged —
no modelled call site reaches that case. -/
def filterElemRecord (fieldList : List String) : Json → Json
  | .obj o => .obj (filterObjectFields o fieldList)
  | other => other

/-- Source function `filterFields`: no selector ⇒ identity; arrays are projected elementwise,
records directly. -/
def filterFields (data : Json) (fields : Option FieldFilter) : Json :=
  match fields with
  | none => data
  | some f =>
    let fieldList := resolveFieldList f
    match data with
    | .arr l => .arr (l.map fun it => filterElemRecord fieldList it)
    | .obj o => .obj (filterObjectFields o fieldList)
    | other => other

/-- Source function `filterApiResponse`: no selector ⇒ identity; an empty resolved field list
drops the `item`/`items` payload keys and keeps the remaining metadata
(`const { item: _item, items: _items, ...metadata } = data`); otherwise the
payload is projected in place (`{ ...data, items: ... }` / `{ ...data,
item: ... }`) and an unrecognized shape is returned unmodified. -/
def filterApiResponse (data : JsObject) (fields : Option FieldFilter) : JsObject :=
  match fields with
  | none => data
  | some f =>
    let fieldList := resolveFieldList f
    if fieldList.isEmpty then
      data.filter fun kv => !(kv.1 == "item" || kv.1 == "items")
    else
      match data.lookup "items" with
      | some (.arr items) => assocSet data "items" (filterFields (.arr items) (some f))
      | _ =>
        match data.lookup "item" with
        | some v => if isJsObject v then assocSet data "item" (filterFields v (some f)) else data
        | _ => data


/-! ## Highlight read-modify-write operations (src/index.ts,
`RaindropClient.updateHighlight` / `RaindropClient.deleteHighlight`) -/

/-- An embedded highlight record of a raindrop. -/
structure Highlight where
  hlId : String
  text : String
  note : Option String := none
  color : Option String := none
  deriving DecidableEq, Repr

/-- The remote calls a highlight operation can issue: the initial
`getRaindrop` fetch and the write-back `updateRaindrop` carrying the full
replacement highlight array. -/
inductive HighlightCall where
  | fetch (raindropId : Int)
  | update (raindropId : Int) (highlights : List Highlight)
  deriving DecidableEq

/-- Errors of the modelled operations (the source throws `Error` values whose
messages the spec names `HighlightNotFoundError` / `ValidationError`). -/
inductive RdError where
  | highlightNotFound (highlightId : String) (raindropId : Int)
  | validation
  deriving DecidableEq

/-- JavaScript `Array.prototype.findIndex` (`-1` modelled as `none`): index of
the first
element satisfying the predicate. -/
def findIndexBy {α : Type} (p : α → Bool) : List α → Option Nat
  | [] => none
  | x :: t => if p x then some 0 else (findIndexBy p t).map (· + 1)

/-- Assignment `updatedHighlights[i] = { ...updatedHighlights[i], text: "" }`:
blank the
text of the element at index `i`, keep everything else. -/
def setTextEmptyAt : List Highlight → Nat → List Highlight
  | [], _ => []
  | h :: t, 0 => { h with text := "" } :: t
  | h :: t, n + 1 => h :: setTextEmptyAt t n

/-- The caller-supplied update record `{ text?, color?, note? }`. -/
structure HighlightUpdates where
  text : Option String := none
  color : Option String := none
  note : Option String := none

/-- The three `if (updates.x !== undefined)` assignments of `updateHighlight`. -/
def applyHighlightUpdates (h : Highlight) (updates : HighlightUpdates) : Highlight :=
  let h1 := match updates.text with | some t => { h with text := t } | none => h
  let h2 := match updates.color with | some c => { h1 with color := some c } | none => h1
  match updates.note with | some n => { h2 with note := some n } | none => h2

/-- Assignment `updatedHighlights[i] = updatedHighlight`: apply the updates to
the
element at index `i`, keep everything else. -/
def applyUpdatesAt (updates : HighlightUpdates) : List Highlight → Nat → List Highlight
  | [], _ => []
  | h :: t, 0 => applyHighlightUpdates h updates :: t
  | h :: t, n + 1 => h :: applyUpdatesAt updates t n

/-- Source method `RaindropClient.deleteHighlight`: fetch the raindrop (its highlight array,
`undefined` defaulted to `[]`, is passed in as `fetchedHighlights`), find the
target by id; if absent fail with `HighlightNotFoundError` after only the
fetch, otherwise blank the target's text and issue one full-array update.
Returns the operation result together with the list of remote calls issued. -/
def deleteHighlight (raindropId : Int) (highlightId : String)
    (fetchedHighlights : Option (List Highlight)) :
    Except RdError (List Highlight) × List HighlightCall :=
  let existingHighlights := fetchedHighlights.getD []
  match findIndexBy (fun h => h.hlId == highlightId) existingHighlights with
  | none => (.error (.highlightNotFound highlightId raindropId), [.fetch raindropId])
  | some i =>
    let updatedHighlights := setTextEmptyAt existingHighlights i
    (.ok updatedHighlights, [.fetch raindropId, .update raindropId updatedHighlights])

/-- Source method `RaindropClient.updateHighlight`: like `deleteHighlight`, but the target
element receives the explicitly supplied subfields instead of a blanked text. -/
def updateHighlight (raindropId : Int) (highlightId : String)
    (updates : HighlightUpdates) (fetchedHighlights : Option (List Highlight)) :
    Except RdError (List Highlight) × List HighlightCall :=
  let existingHighlights := fetchedHighlights.getD []
  match findIndexBy (fun h => h.hlId == highlightId) existingHighlights with
  | none => (.error (.highlightNotFound highlightId raindropId), [.fetch raindropId])
  | some i =>
    let updatedHighlights := applyUpdatesAt updates existingHighlights i
    (.ok updatedHighlights, [.fetch raindropId, .update raindropId updatedHighlights])

/-! ## Bulk bookmark creation (src/index.ts, `create-raindrops-bulk` handler) -/

/-- One element of the caller-supplied `raindrops` list.  Only the `link`
field influences the control flow and the error records; the remaining
optional per-item fields are payload copied into the create request. -/
structure BulkItemInput where
  link : String
  deriving DecidableEq

/-- One recorded per-item failure (`{ index, link, error }`). -/
structure BulkError where
  index : Nat
  link : String
  error : String
  deriving DecidableEq

/-- The `results` accumulator of the bulk-create loop. -/
structure BulkResults where
  total : Nat
  successful : Nat
  failed : Nat
  created : List Json
  errors : List BulkError

/-- The summary the handler reports (`success: results.failed === 0` plus the
three counters, in both the minimal and the full response shape). -/
structure BulkSummary where
  success : Bool
  total : Nat
  successful : Nat
  failed : Nat

/-- The `for (let i = 0; ...)` loop of the bulk-create handler.  The result of
each `createRaindrop` call is supplied by the oracle `outcome` (indexed by
item position); the returned `List Nat` is the trace of item indices for which
a create call was actually attempted.  The inter-item `delay` has no
observable effect in this model. -/
def bulkCreateGo (outcome : Nat → Except String Json) (continueOnError : Bool) :
    List BulkItemInput → Nat → BulkResults → List Nat → BulkResults × List Nat
  | [], _, results, attempts => (results, attempts)
  | raindrop :: rest, i, results, attempts =>
    match outcome i with
    | .ok item =>
      bulkCreateGo outcome continueOnError rest (i + 1)
        { results with successful := results.successful + 1,
                       created := results.created ++ [item] }
        (attempts ++ [i])
    | .error e =>
      let results2 :=
        { results with
          failed := results.failed + 1
          errors := results.errors ++ [⟨i, raindrop.link, e⟩] }
      if continueOnError then bulkCreateGo outcome continueOnError rest (i + 1) results2 (attempts ++ [i])
      else (results2, attempts ++ [i])

/-- The bulk-create handler body: initialize the accumulator with
`total := raindrops.length` and run the loop from index 0. -/
def bulkCreate (raindrops : List BulkItemInput) (continueOnError : Bool)
    (outcome : Nat → Except String Json) : BulkResults × List Nat :=
  bulkCreateGo outcome continueOnError raindrops 0
    { total := raindrops.length, successful := 0, failed := 0, created := [], errors := [] } []

/-- The summary computed from the final accumulator. -/
def bulkSummaryOf (results : BulkResults) : BulkSummary :=
  { success := results.failed == 0, total := results.total,
    successful := results.successful, failed := results.failed }

/-! ## Watch-collection polling diff (src/index.ts, `RaindropClient.watchCollection`) -/

/-- A fetched raindrop as seen by the watch filter: only its parsed creation
timestamp matters (`none` models an absent, empty or unparseable `created`). -/
structure WatchItem where
  created : Option Int
  deriving DecidableEq

/-- The result object of `watchCollection`. -/
structure WatchResult where
  collectionId : Int
  since : Int
  untilTs : Int
  newItems : List WatchItem
  count : Nat
  deriving DecidableEq

/-- The process-wide `watchTimestamps` map (collection id → last-observed-at
timestamp), with JavaScript `Map` insertion-order semantics. -/
abbrev WatchMap := List (Int × Int)

/-- Source method `RaindropClient.watchCollection`.  Argument `now` is the
call-time timestamp
(`new Date().toISOString()`), `fetchedItems` the up-to-50 most recently
created raindrops the remote fetch returns.  Returns the result together with
the updated cursor map. -/
def watchCollection (watchTimestamps : WatchMap) (collectionId : Int)
    (since : Option Int) (resetWatch : Bool) (now : Int)
    (fetchedItems : List WatchItem) : WatchResult × WatchMap :=
  if resetWatch then
    ({ collectionId := collectionId, since := now, untilTs := now, newItems := [], count := 0 },
     assocSet watchTimestamps collectionId now)
  else
    let checkSince :=
      match since with
      | some s => s
      | none => (watchTimestamps.lookup collectionId).getD now
    let newItems := fetchedItems.filter fun item =>
      match item.created with
      | some created => decide (created > checkSince)
      | none => false
    ({ collectionId := collectionId, since := checkSince, untilTs := now,
       newItems := newItems, count := newItems.length },
     assocSet watchTimestamps collectionId now)

/-! ## Empty-trash confirmation gate (src/index.ts, `empty-trash` handler and
`RaindropClient.emptyTrash`) -/

/-- A remote call of the trash tools. -/
inductive TrashCall where
  | deleteCollection (collectionId : Int)
  deriving DecidableEq

/-- Source constant `TRASH_COLLECTION_ID = -99`. -/
def TRASH_COLLECTION_ID : Int := -99

/-- Source method `RaindropClient.emptyTrash` issues a single DELETE against the trash
pseudo-collection. -/
def emptyTrashClientCalls : List TrashCall := [.deleteCollection TRASH_COLLECTION_ID]

/-- The `empty-trash` tool handler: without `confirm` it throws the
confirmation `ValidationError` before the client is invoked; with `confirm`
it calls `client.emptyTrash()` and reports success.  Returns the outcome
together with the remote calls issued. -/
def emptyTrashHandler (confirm : Bool) : Except RdError String × List TrashCall :=
  if !confirm then
    (.error .validation, [])
  else
    (.ok "Trash emptied successfully. All items have been permanently deleted.",
     emptyTrashClientCalls)
/-! ## Idempotence analysis of title cleaning -/

theorem dropWhile_dropWhile {α : Type} (p : α → Bool) (l : List α) :
    (l.dropWhile p).dropWhile p = l.dropWhile p := by
  induction l with
  | nil => rfl
  | cons a l ih =>
    by_cases h : p a
    · simp [List.dropWhile_cons, h, ih]
    · simp [List.dropWhile_cons, h]

theorem head_dropWhile_false {α : Type} (p : α → Bool) (l : List α) {c : α} {t : List α}
    (h : l.dropWhile p = c :: t) : p c = false := by
  have hh := List.head?_dropWhile_not p l
  rw [h] at hh
  simpa using hh

theorem dropWhile_eq_self_of_headq {α : Type} (p : α → Bool) {l : List α}
    (h : ∀ c, l.head? = some c → p c = false) : l.dropWhile p = l := by
  cases l with
  | nil => rfl
  | cons c t => simp [List.dropWhile_cons, h c rfl]

theorem exists_getLastq_cons {α : Type} (c : α) (t : List α) :
    ∃ y, (c :: t).getLast? = some y := by
  induction t generalizing c with
  | nil => exact ⟨c, rfl⟩
  | cons c2 t2 ih =>
    obtain ⟨y, hy⟩ := ih c2
    exact ⟨y, by rw [List.getLast?_cons_cons, hy]⟩

/-- A trimmed character list has no leading whitespace left. -/
theorem trimList_no_lead (l : List Char) :
    (trimList l).dropWhile Char.isWhitespace = trimList l := by
  cases hbe : (trimLeftList l).reverse.dropWhile Char.isWhitespace with
  | nil =>
    show (trimList l).dropWhile Char.isWhitespace = trimList l
    rw [show trimList l = ((trimLeftList l).reverse.dropWhile Char.isWhitespace).reverse
      from rfl, hbe]
    rfl
  | cons c t =>
    apply dropWhile_eq_self_of_headq
    intro x hx
    obtain ⟨u, hu⟩ : (trimLeftList l).reverse.dropWhile Char.isWhitespace <:+
        (trimLeftList l).reverse := List.dropWhile_suffix _
    rw [hbe] at hu
    have hanil : trimLeftList l ≠ [] := by
      intro hnil
      rw [hnil] at hu
      simpa using congrArg List.length hu
    obtain ⟨d, s, hds⟩ : ∃ d s, trimLeftList l = d :: s := by
      cases hae : trimLeftList l with
      | nil => exact absurd hae hanil
      | cons d s => exact ⟨d, s, rfl⟩
    have hdws : Char.isWhitespace d = false := head_dropWhile_false _ l hds
    obtain ⟨y, hy⟩ := exists_getLastq_cons c t
    have hAlast : (u ++ c :: t).getLast? = some d := by
      rw [hu, List.getLast?_reverse, hds]
      rfl
    rw [List.getLast?_append, hy] at hAlast
    have hyd : y = d := by
      have h2 : some y = some d := by
        rw [← hAlast]
        rfl
      injection h2
    have hxy : x = y := by
      rw [show trimList l = ((trimLeftList l).reverse.dropWhile Char.isWhitespace).reverse
        from rfl, List.head?_reverse, hbe, hy] at hx
      injection hx.symm
    rw [hxy, hyd]
    exact hdws

/-- Trimming is idempotent at the list level. -/
theorem trimList_idem (l : List Char) : trimList (trimList l) = trimList l := by
  have h1 : (trimList l).dropWhile Char.isWhitespace = trimList l := trimList_no_lead l
  show ((trimLeftList (trimList l)).reverse.dropWhile Char.isWhitespace).reverse = trimList l
  rw [show trimLeftList (trimList l) = trimList l from h1]
  rw [show (trimList l).reverse = (trimLeftList l).reverse.dropWhile Char.isWhitespace from by
    simp [trimList]]
  rw [dropWhile_dropWhile]
  simp [trimList]

/-- Trimming is idempotent at the string level. -/
theorem trimStr_idem (s : String) : trimStr (trimStr s) = trimStr s := by
  show (⟨trimList (trimList s.data)⟩ : String) = ⟨trimList s.data⟩
  rw [trimList_idem]

theorem cleanTitle_eq_trim {s : String} (h : hasEnclosingQuotes (trimStr s) = false) :
    cleanTitle s = trimStr s := by
  simp [cleanTitle, h]

/-- Function `cleanTitle` is idempotent on strings whose trimmed form is not
enclosed in
matching quotes.  (It is not idempotent in general: stripping the quotes can
expose fresh whitespace, or another layer of quotes.) -/
theorem cleanTitle_idem_of_unquoted {s : String} (h : hasEnclosingQuotes (trimStr s) = false) :
    cleanTitle (cleanTitle s) = cleanTitle s := by
  rw [cleanTitle_eq_trim h]
  have h2 : trimStr (trimStr s) = trimStr s := trimStr_idem s
  simp [cleanTitle, h2, h]

mutual

theorem cleanTitlesInData_idem_aux : ∀ j : Json, titlesUnquoted j = true →
    cleanTitlesInData (cleanTitlesInData j) = cleanTitlesInData j
  | .null, _ => rfl
  | .bool _, _ => rfl
  | .num _, _ => rfl
  | .str _, _ => rfl
  | .arr l, h => by
      simp only [cleanTitlesInData]
      rw [cleanList_idem_aux l (by simpa [titlesUnquoted] using h)]
  | .obj o, h => by
      simp only [cleanTitlesInData]
      rw [cleanObj_idem_aux o (by simpa [titlesUnquoted] using h)]

theorem cleanList_idem_aux : ∀ l : List Json, titlesUnquotedList l = true →
    cleanList (cleanList l) = cleanList l
  | [], _ => rfl
  | x :: xs, h => by
      simp only [titlesUnquotedList, Bool.and_eq_true] at h
      simp only [cleanList]
      rw [cleanTitlesInData_idem_aux x h.1, cleanList_idem_aux xs h.2]

theorem cleanObj_idem_aux : ∀ o : List (String × Json), titlesUnquotedObj o = true →
    cleanObj (cleanObj o) = cleanObj o
  | [], _ => rfl
  | (k, v) :: rest, h => by
      simp only [titlesUnquotedObj, Bool.and_eq_true] at h
      simp only [cleanObj]
      rw [cleanEntryVal_idem_aux k v h.1, cleanObj_idem_aux rest h.2]

theorem cleanEntryVal_idem_aux : ∀ (k : String) (v : Json), titlesUnquotedEntry k v = true →
    cleanEntryVal k (cleanEntryVal k v) = cleanEntryVal k v
  | k, .str s, h => by
      by_cases hk : k = "title"
      · subst hk
        have hq : hasEnclosingQuotes (trimStr s) = false := by
          simpa [titlesUnquotedEntry] using h
        have h1 : cleanEntryVal "title" (Json.str s) = Json.str (cleanTitle s) := rfl
        have h2 : cleanEntryVal "title" (Json.str (cleanTitle s)) =
            Json.str (cleanTitle (cleanTitle s)) := rfl
        rw [h1, h2, cleanTitle_idem_of_unquoted hq]
      · simp [cleanEntryVal, hk]
  | k, .arr l, h => by
      simp only [cleanEntryVal]
      rw [cleanList_idem_aux l (by simpa [titlesUnquotedEntry] using h)]
  | k, .obj o, h => by
      simp only [cleanEntryVal]
      rw [cleanObj_idem_aux o (by simpa [titlesUnquotedEntry] using h)]
  | _, .null, _ => rfl
  | _, .bool _, _ => rfl
  | _, .num _, _ => rfl

end

mutual

theorem eraseTitles_clean_aux : ∀ j : Json, eraseTitles (cleanTitlesInData j) = eraseTitles j
  | .null => rfl
  | .bool _ => rfl
  | .num _ => rfl
  | .str _ => rfl
  | .arr l => by
      simp only [cleanTitlesInData, eraseTitles]
      rw [eraseList_clean_aux l]
  | .obj o => by
      simp only [cleanTitlesInData, eraseTitles]
      rw [eraseObj_clean_aux o]

theorem eraseList_clean_aux : ∀ l : List Json, eraseList (cleanList l) = eraseList l
  | [] => rfl
  | x :: xs => by
      simp only [cleanList, eraseList]
      rw [eraseTitles_clean_aux x, eraseList_clean_aux xs]

theorem eraseObj_clean_aux : ∀ o : List (String × Json), eraseObj (cleanObj o) = eraseObj o
  | [] => rfl
  | (k, v) :: rest => by
      simp only [cleanObj, eraseObj]
      rw [eraseEntryVal_clean_aux k v, eraseObj_clean_aux rest]

theorem eraseEntryVal_clean_aux : ∀ (k : String) (v : Json),
    eraseEntryVal k (cleanEntryVal k v) = eraseEntryVal k v
  | k, .str s => by
      by_cases hk : k = "title"
      · subst hk
        rfl
      · simp [cleanEntryVal, eraseEntryVal, hk]
  | k, .arr l => by
      simp only [cleanEntryVal, eraseEntryVal]
      rw [eraseList_clean_aux l]
  | k, .obj o => by
      simp only [cleanEntryVal, eraseEntryVal]
      rw [eraseObj_clean_aux o]
  | _, .null => rfl
  | _, .bool _ => rfl
  | _, .num _ => rfl

end

/-- C1 counterexample: the normalizer is not idempotent as claimed.  On the
object `{title: "\" a \""}` (a title whose quotes enclose padded text) one
application yields `{title: " a "}` but a second application trims further to
`{title: "a"}`, so `normalize(normalize(x)) ≠ normalize(x)`. -/
theorem c1_normalize_not_idempotent_counterexample :
    cleanTitlesInData (cleanTitlesInData (Json.obj [("title", Json.str "\" a \"")])) ≠
      cleanTitlesInData (Json.obj [("title", Json.str "\" a \"")]) := by
  rw [show cleanTitlesInData (Json.obj [("title", Json.str "\" a \"")]) =
      Json.obj [("title", Json.str " a ")] from rfl]
  rw [show cleanTitlesInData (Json.obj [("title", Json.str " a ")]) =
      Json.obj [("title", Json.str "a")] from rfl]
  intro h
  simp only [Json.obj.injEq, List.cons.injEq, Prod.mk.injEq, Json.str.injEq, and_true,
    true_and] at h
  exact absurd h (by decide)

/-- C1 (amended): title normalization is idempotent on every JSON value none of
whose strings under a `"title"` key, after trimming, both starts and ends with
the same quote character; for such values
`cleanTitlesInData (cleanTitlesInData j) = cleanTitlesInData j`. -/
theorem c1_normalize_idempotent_on_unquoted_titles (j : Json)
    (h : titlesUnquoted j = true) :
    cleanTitlesInData (cleanTitlesInData j) = cleanTitlesInData j :=
  cleanTitlesInData_idem_aux j h

/-- Witness for the amended C1 at a concrete nested value. -/
theorem c1_normalize_idempotent_witness :
    titlesUnquoted (Json.obj [("title", Json.str "  Hello World  "),
      ("items", Json.arr [Json.obj [("title", Json.str "x"), ("count", Json.num 3)]])]) = true ∧
    cleanTitlesInData (cleanTitlesInData (Json.obj [("title", Json.str "  Hello World  "),
      ("items", Json.arr [Json.obj [("title", Json.str "x"), ("count", Json.num 3)]])])) =
      cleanTitlesInData (Json.obj [("title", Json.str "  Hello World  "),
      ("items", Json.arr [Json.obj [("title", Json.str "x"), ("count", Json.num 3)]])]) :=
  ⟨by decide, c1_normalize_idempotent_on_unquoted_titles _ (by decide)⟩

/-- C10: the response normalizer preserves structure.  `eraseTitles` replaces
every string stored under a `"title"` key by `""` and keeps everything else
verbatim, so `eraseTitles (cleanTitlesInData j) = eraseTitles j` says exactly:
the output of the normalizer agrees with its input everywhere — array lengths
and element order, object key sets and order, all primitive values — except
possibly at string values under a `"title"` key, which stay strings. -/
theorem c10_normalizer_preserves_structure (j : Json) :
    eraseTitles (cleanTitlesInData j) = eraseTitles j :=
  eraseTitles_clean_aux j

/-! ## Lookup characterization of assignment and projection -/

theorem lookup_map_upd_ne {α β : Type} [BEq α] [LawfulBEq α] {j k : α} {v : β}
    (h : (j == k) = false) (m : List (α × β)) :
    (m.map fun kv => if kv.1 == k then (k, v) else kv).lookup j = m.lookup j := by
  induction m with
  | nil => rfl
  | cons kv t ih =>
    obtain ⟨a, b⟩ := kv
    cases hak : a == k with
    | true =>
      have hae : a = k := by simpa using hak
      subst hae
      simp [List.lookup_cons, h, ih]
    | false =>
      cases hja : j == a with
      | true => simp [List.lookup_cons, hak, hja]
      | false => simp [List.lookup_cons, hak, hja, ih]

theorem lookup_map_upd_eq {α β : Type} [BEq α] [LawfulBEq α] {k : α} {v : β}
    (m : List (α × β)) (h : (m.lookup k).isSome = true) :
    (m.map fun kv => if kv.1 == k then (k, v) else kv).lookup k = some v := by
  induction m with
  | nil => simp [List.lookup] at h
  | cons kv t ih =>
    obtain ⟨a, b⟩ := kv
    cases hak : a == k with
    | true =>
      have hae : a = k := by simpa using hak
      subst hae
      simp [List.lookup_cons]
    | false =>
      have hka : (k == a) = false :=
        beq_eq_false_iff_ne.mpr (Ne.symm (beq_eq_false_iff_ne.mp hak))
      simp only [List.lookup_cons, hka] at h
      simp only [List.map_cons, hak, Bool.false_eq_true, if_false, List.lookup_cons, hka]
      exact ih h

/-- Lookup after JavaScript-style assignment: the assigned key now maps to the
new value, every other key is untouched. -/
theorem assocSet_lookup {α β : Type} [BEq α] [LawfulBEq α] [DecidableEq α]
    (m : List (α × β)) (k : α) (v : β) (j : α) :
    (assocSet m k v).lookup j = if j = k then some v else m.lookup j := by
  unfold assocSet
  by_cases hs : (m.lookup k).isSome
  · rw [if_pos hs]
    by_cases hj : j = k
    · subst hj
      rw [if_pos rfl]
      exact lookup_map_upd_eq m hs
    · rw [if_neg hj]
      exact lookup_map_upd_ne (beq_eq_false_iff_ne.mpr hj) m
  · rw [if_neg hs]
    rw [List.lookup_append]
    by_cases hj : j = k
    · subst hj
      rw [if_pos rfl]
      have hmn : m.lookup j = none := by
        cases hml : m.lookup j with
        | none => rfl
        | some b => exact absurd (by rw [hml]; rfl) hs
      rw [hmn]
      simp [List.lookup_cons]
    · rw [if_neg hj]
      have h1 : List.lookup j [(k, v)] = none := by
        simp [List.lookup_cons, beq_eq_false_iff_ne.mpr hj]
      rw [h1]
      cases m.lookup j <;> rfl

/-! ## C8: empty-trash confirmation -/

/-- C8: an `empty-trash` invocation whose `confirm` argument is not `true`
fails with the confirmation `ValidationError` and issues no delete call
against the trash collection — the remote service is not contacted at all. -/
theorem c8_empty_trash_requires_confirmation (confirm : Bool) (h : confirm = false) :
    emptyTrashHandler confirm = (.error .validation, []) := by
  subst h
  rfl

/-- Witness for C8 at `confirm = false`. -/
theorem c8_empty_trash_witness : emptyTrashHandler false = (.error .validation, []) :=
  c8_empty_trash_requires_confirmation false rfl

/-! ## C6 / C7: field projection -/

/-- C6: for every envelope and every field selector that resolves to the empty
field list, projection returns exactly the envelope with the `item` and
`items` keys removed and all other top-level entries unchanged (in order). -/
theorem c6_empty_field_list_keeps_metadata (data : JsObject) (f : FieldFilter)
    (h : resolveFieldList f = []) :
    filterApiResponse data (some f) =
      data.filter fun kv => decide (kv.1 ≠ "item" ∧ kv.1 ≠ "items") := by
  simp only [filterApiResponse, h, List.isEmpty_nil, if_true]
  apply List.filter_congr
  intro kv _
  by_cases h1 : kv.1 = "item"
  · simp [h1]
  · by_cases h2 : kv.1 = "items"
    · simp [h2]
    · simp [h1, h2]

/-- Witness for C6 at the envelope `{result: true, items: [...], count: 3}`
with the explicit empty selector, yielding `{result: true, count: 3}`. -/
theorem c6_empty_field_list_witness :
    filterApiResponse [("result", Json.bool true),
        ("items", Json.arr [Json.obj [("_id", Json.num 1)]]), ("count", Json.num 3)]
      (some (.list [])) =
      [("result", Json.bool true), ("count", Json.num 3)] := by
  rw [c6_empty_field_list_keeps_metadata _ (FieldFilter.list []) rfl]
  rfl

theorem filterFold_lookup (obj : JsObject) (k : String) :
    ∀ (fieldList : List String) (acc : JsObject),
    (fieldList.foldl (fun acc field =>
        match obj.lookup field with
        | some v => assocSet acc field v
        | none => acc) acc).lookup k =
      if k ∈ fieldList ∧ (obj.lookup k).isSome = true then obj.lookup k else acc.lookup k
  | [], acc => by simp
  | f :: fs, acc => by
    rw [List.foldl_cons]
    rw [filterFold_lookup obj k fs _]
    by_cases hmem : k ∈ fs ∧ (obj.lookup k).isSome = true
    · rw [if_pos hmem, if_pos ⟨List.mem_cons_of_mem f hmem.1, hmem.2⟩]
    · rw [if_neg hmem]
      cases hof : obj.lookup f with
      | some v =>
        show (assocSet acc f v).lookup k = _
        rw [assocSet_lookup acc f v k]
        by_cases hkf : k = f
        · subst hkf
          rw [if_pos rfl, if_pos ⟨List.mem_cons_self _ _, by rw [hof]; rfl⟩, hof]
        · rw [if_neg hkf,
            if_neg (fun hc => hmem ⟨(List.mem_cons.mp hc.1).resolve_left hkf, hc.2⟩)]
      | none =>
        show acc.lookup k = _
        rw [if_neg ?both]
        case both =>
          intro hc
          rcases List.mem_cons.mp hc.1 with hkf | hks
          · rw [hkf, hof] at hc
            exact absurd hc.2 (by simp)
          · exact hmem ⟨hks, hc.2⟩

/-- C7: for every record and every non-empty field list, the projected record
maps a key to a value exactly when the key is in the field list and the record
maps that key to that same value; keys outside the field list never appear,
and matching is exact key equality. -/
theorem c7_projection_exact_keys (obj : JsObject) (fieldList : List String)
    (h : fieldList ≠ []) (k : String) :
    (filterObjectFields obj fieldList).lookup k =
      if k ∈ fieldList ∧ (obj.lookup k).isSome = true then obj.lookup k else none := by
  unfold filterObjectFields
  rw [if_neg (by simpa [List.isEmpty_iff] using h)]
  rw [filterFold_lookup]
  by_cases hc : k ∈ fieldList ∧ (obj.lookup k).isSome = true
  · rw [if_pos hc, if_pos hc]
  · rw [if_neg hc, if_neg hc]
    rfl

/-- Witness for C7: projecting `{_id: 1, title: "x", extra: "y"}` with the
selector `["_id", "title"]` keeps `_id`, and drops `extra`. -/
theorem c7_projection_witness :
    (filterObjectFields [("_id", Json.num 1), ("title", Json.str "x"), ("extra", Json.str "y")]
        ["_id", "title"]).lookup "extra" = none ∧
    (filterObjectFields [("_id", Json.num 1), ("title", Json.str "x"), ("extra", Json.str "y")]
        ["_id", "title"]).lookup "_id" = some (Json.num 1) :=
  ⟨(c7_projection_exact_keys _ _ (by decide) "extra").trans (by rfl),
   (c7_projection_exact_keys _ _ (by decide) "_id").trans (by rfl)⟩

/-! ## C3 / C4: highlight delete and update -/

theorem findIndexBy_eq_none {α : Type} (p : α → Bool) (l : List α)
    (h : ∀ x ∈ l, p x = false) : findIndexBy p l = none := by
  induction l with
  | nil => rfl
  | cons x t ih =>
    simp only [findIndexBy, h x (List.mem_cons_self x t), Bool.false_eq_true, if_false]
    rw [ih (fun y hy => h y (List.mem_cons_of_mem x hy))]
    rfl

theorem findIndexBy_isSome {α : Type} (p : α → Bool) (l : List α)
    (h : ∃ x ∈ l, p x = true) : ∃ i, findIndexBy p l = some i := by
  induction l with
  | nil =>
    obtain ⟨x, hx, _⟩ := h
    exact absurd hx (List.not_mem_nil x)
  | cons x t ih =>
    by_cases hp : p x
    · exact ⟨0, by simp [findIndexBy, hp]⟩
    · obtain ⟨y, hy, hpy⟩ := h
      have hyt : y ∈ t := by
        rcases List.mem_cons.mp hy with rfl | hmem
        · exact absurd hpy (by simpa using hp)
        · exact hmem
      obtain ⟨i, hi⟩ := ih ⟨y, hyt, hpy⟩
      exact ⟨i + 1, by simp [findIndexBy, hp, hi]⟩

theorem setTextEmptyAt_length (l : List Highlight) (i : Nat) :
    (setTextEmptyAt l i).length = l.length := by
  induction l generalizing i with
  | nil => rfl
  | cons h t ih =>
    cases i with
    | zero => rfl
    | succ n => simp [setTextEmptyAt, ih]

theorem setTextEmptyAt_getq_self (l : List Highlight) (i : Nat) :
    (setTextEmptyAt l i).get? i = (l.get? i).map (fun hl => { hl with text := "" }) := by
  induction l generalizing i with
  | nil => rfl
  | cons h t ih =>
    cases i with
    | zero => rfl
    | succ n => simpa [setTextEmptyAt] using ih n

theorem setTextEmptyAt_getq_ne (l : List Highlight) (i j : Nat) (h : j ≠ i) :
    (setTextEmptyAt l i).get? j = l.get? j := by
  induction l generalizing i j with
  | nil => rfl
  | cons hd t ih =>
    cases i with
    | zero =>
      cases j with
      | zero => exact absurd rfl h
      | succ m => rfl
    | succ n =>
      cases j with
      | zero => rfl
      | succ m => simpa [setTextEmptyAt] using ih n m (fun he => h (by rw [he]))

/-- C3: when the fetched highlight array contains an element with the
requested id, highlight delete issues exactly one update (after the single
fetch), whose highlight array has the same length as the fetched array, with
the targeted element's text replaced by `""` and every other element
unchanged — the array entry is never removed. -/
theorem c3_delete_highlight_tombstone (raindropId : Int) (highlightId : String)
    (fetchedHighlights : Option (List Highlight))
    (h : ∃ hl ∈ fetchedHighlights.getD [], hl.hlId = highlightId) :
    ∃ i updated,
      findIndexBy (fun hl => hl.hlId == highlightId) (fetchedHighlights.getD []) = some i ∧
      deleteHighlight raindropId highlightId fetchedHighlights =
        (.ok updated, [.fetch raindropId, .update raindropId updated]) ∧
      updated.length = (fetchedHighlights.getD []).length ∧
      updated.get? i = ((fetchedHighlights.getD []).get? i).map (fun hl => { hl with text := "" }) ∧
      (∀ j, j ≠ i → updated.get? j = (fetchedHighlights.getD []).get? j) := by
  obtain ⟨i, hi⟩ := findIndexBy_isSome (fun hl => hl.hlId == highlightId)
    (fetchedHighlights.getD [])
    (by obtain ⟨hl, hmem, hid⟩ := h; exact ⟨hl, hmem, by simpa using hid⟩)
  refine ⟨i, setTextEmptyAt (fetchedHighlights.getD []) i, hi, ?_, ?_, ?_, ?_⟩
  · simp only [deleteHighlight, hi]
  · exact setTextEmptyAt_length _ i
  · exact setTextEmptyAt_getq_self _ i
  · exact fun j hj => setTextEmptyAt_getq_ne _ i j hj

/-- Witness for C3 at the spec example `[{_id: "h1", text: "foo"}]`. -/
theorem c3_delete_highlight_witness :
    ∃ i updated,
      findIndexBy (fun hl => hl.hlId == "h1")
        ((some [({ hlId := "h1", text := "foo" } : Highlight)]).getD []) = some i ∧
      deleteHighlight 5 "h1" (some [{ hlId := "h1", text := "foo" }]) =
        (.ok updated, [.fetch 5, .update 5 updated]) ∧
      updated.length = ((some [({ hlId := "h1", text := "foo" } : Highlight)]).getD []).length ∧
      updated.get? i = (((some [({ hlId := "h1", text := "foo" } : Highlight)]).getD []).get? i).map
        (fun hl => { hl with text := "" }) ∧
      (∀ j, j ≠ i →
        updated.get? j = ((some [({ hlId := "h1", text := "foo" } : Highlight)]).getD []).get? j) :=
  c3_delete_highlight_tombstone 5 "h1" (some [{ hlId := "h1", text := "foo" }])
    ⟨{ hlId := "h1", text := "foo" }, List.mem_singleton.mpr rfl, rfl⟩

/-- C4: when the fetched highlight array contains no element with the
requested id, highlight update fails with `HighlightNotFoundError` and issues
no update call — the only remote call is the initial fetch. -/
theorem c4_update_highlight_not_found (raindropId : Int) (highlightId : String)
    (updates : HighlightUpdates) (fetchedHighlights : Option (List Highlight))
    (h : ∀ hl ∈ fetchedHighlights.getD [], hl.hlId ≠ highlightId) :
    updateHighlight raindropId highlightId updates fetchedHighlights =
      (.error (.highlightNotFound highlightId raindropId), [.fetch raindropId]) := by
  have hnone : findIndexBy (fun hl => hl.hlId == highlightId)
      (fetchedHighlights.getD []) = none :=
    findIndexBy_eq_none _ _ (fun x hx => by simpa using h x hx)
  simp only [updateHighlight, hnone]

/-- Witness for C4: updating highlight `"h2"` on a bookmark whose only
highlight is `"h1"` fails after the fetch alone. -/
theorem c4_update_highlight_witness :
    updateHighlight 5 "h2" { text := some "new" } (some [{ hlId := "h1", text := "foo" }]) =
      (.error (.highlightNotFound "h2" 5), [.fetch 5]) :=
  c4_update_highlight_not_found 5 "h2" { text := some "new" }
    (some [{ hlId := "h1", text := "foo" }])
    (fun hl hmem => by
      rw [List.mem_singleton.mp hmem]
      decide)

/-! ## C5 / C9: bulk bookmark creation -/

theorem bulkCreateGo_spec (outcome : Nat → Except String Json) (continueOnError : Bool) :
    ∀ (items : List BulkItemInput) (i : Nat) (results : BulkResults) (attempts : List Nat),
    results.successful = results.created.length →
    results.failed = results.errors.length →
    ((bulkCreateGo outcome continueOnError items i results attempts).1.successful =
      (bulkCreateGo outcome continueOnError items i results attempts).1.created.length ∧
     (bulkCreateGo outcome continueOnError items i results attempts).1.failed =
      (bulkCreateGo outcome continueOnError items i results attempts).1.errors.length) ∧
    (bulkCreateGo outcome continueOnError items i results attempts).1.total = results.total ∧
    (bulkCreateGo outcome continueOnError items i results attempts).1.successful +
      (bulkCreateGo outcome continueOnError items i results attempts).1.failed ≤
      results.successful + results.failed + items.length ∧
    (continueOnError = false →
      (bulkCreateGo outcome continueOnError items i results attempts).1.failed ≤
        results.failed + 1)
  | [], i, results, attempts, h1, h2 => by
    refine ⟨⟨h1, h2⟩, rfl, ?_, fun _ => ?_⟩
    · show results.successful + results.failed ≤ results.successful + results.failed + 0
      omega
    · show results.failed ≤ results.failed + 1
      omega
  | item :: rest, i, results, attempts, h1, h2 => by
    cases hout : outcome i with
    | ok v =>
      simp only [bulkCreateGo, hout]
      have ih := bulkCreateGo_spec outcome continueOnError rest (i + 1)
        { results with successful := results.successful + 1, created := results.created ++ [v] }
        (attempts ++ [i]) (by simp [h1]) h2
      obtain ⟨⟨ih1, ih2⟩, ih3, ih4, ih5⟩ := ih
      dsimp only at ih3 ih4 ih5
      refine ⟨⟨ih1, ih2⟩, ih3, ?_, ih5⟩
      simp only [List.length_cons]
      omega
    | error e =>
      rcases Bool.eq_false_or_eq_true continueOnError with hcoe | hcoe
      · -- continueOnError = true: record the error and keep going
        simp only [bulkCreateGo, hout]
        rw [if_pos hcoe]
        have ih := bulkCreateGo_spec outcome continueOnError rest (i + 1)
          { results with failed := results.failed + 1, errors := results.errors ++ [⟨i, item.link, e⟩] }
          (attempts ++ [i]) h1 (by simp [h2])
        obtain ⟨⟨ih1, ih2⟩, ih3, ih4, ih5⟩ := ih
        dsimp only at ih3 ih4 ih5
        refine ⟨⟨ih1, ih2⟩, ih3, ?_, fun hfalse => ?_⟩
        · simp only [List.length_cons]
          omega
        · rw [hcoe] at hfalse
          exact absurd hfalse (by simp)
      · -- continueOnError = false: stop immediately after this item
        simp only [bulkCreateGo, hout]
        rw [if_neg (by simp [hcoe])]
        refine ⟨⟨h1, by simp [h2]⟩, rfl, ?_, fun _ => ?_⟩
        · show results.successful + (results.failed + 1) ≤
            results.successful + results.failed + (rest.length + 1)
          omega
        · show results.failed + 1 ≤ results.failed + 1
          omega

/-- C9: invariants of every bulk-create summary: `successful` counts the
created items, `failed` counts the recorded errors, `successful + failed`
never exceeds `total` (which equals the input length), `failed` is at most 1
when `continueOnError` is false, and the reported `success` flag is true
exactly when `failed` is 0. -/
theorem c9_bulk_summary_invariants (raindrops : List BulkItemInput)
    (continueOnError : Bool) (outcome : Nat → Except String Json) :
    ((bulkCreate raindrops continueOnError outcome).1.successful =
      (bulkCreate raindrops continueOnError outcome).1.created.length) ∧
    ((bulkCreate raindrops continueOnError outcome).1.failed =
      (bulkCreate raindrops continueOnError outcome).1.errors.length) ∧
    ((bulkCreate raindrops continueOnError outcome).1.total = raindrops.length) ∧
    ((bulkCreate raindrops continueOnError outcome).1.successful +
      (bulkCreate raindrops continueOnError outcome).1.failed ≤
      (bulkCreate raindrops continueOnError outcome).1.total) ∧
    (continueOnError = false → (bulkCreate raindrops continueOnError outcome).1.failed ≤ 1) ∧
    ((bulkSummaryOf (bulkCreate raindrops continueOnError outcome).1).success = true ↔
      (bulkCreate raindrops continueOnError outcome).1.failed = 0) := by
  have h := bulkCreateGo_spec outcome continueOnError raindrops 0
    { total := raindrops.length, successful := 0, failed := 0, created := [], errors := [] } []
    rfl rfl
  obtain ⟨⟨h1, h2⟩, h3, h4, h5⟩ := h
  dsimp only at h3 h4 h5
  simp only [bulkCreate]
  refine ⟨h1, h2, h3, by omega, fun hc => by have h6 := h5 hc; omega, ?_⟩
  simp [bulkSummaryOf]

/-- Witness for C9 at a concrete two-item run with one failure and
`continueOnError = false`. -/
theorem c9_bulk_summary_witness :
    ((bulkCreate [⟨"a"⟩, ⟨"b"⟩] false (fun n => if n = 0 then .error "boom" else .ok .null)).1.successful =
      (bulkCreate [⟨"a"⟩, ⟨"b"⟩] false (fun n => if n = 0 then .error "boom" else .ok .null)).1.created.length) ∧
    ((bulkCreate [⟨"a"⟩, ⟨"b"⟩] false (fun n => if n = 0 then .error "boom" else .ok .null)).1.failed =
      (bulkCreate [⟨"a"⟩, ⟨"b"⟩] false (fun n => if n = 0 then .error "boom" else .ok .null)).1.errors.length) ∧
    ((bulkCreate [⟨"a"⟩, ⟨"b"⟩] false (fun n => if n = 0 then .error "boom" else .ok .null)).1.total = 2) ∧
    ((bulkCreate [⟨"a"⟩, ⟨"b"⟩] false (fun n => if n = 0 then .error "boom" else .ok .null)).1.successful +
      (bulkCreate [⟨"a"⟩, ⟨"b"⟩] false (fun n => if n = 0 then .error "boom" else .ok .null)).1.failed ≤
      (bulkCreate [⟨"a"⟩, ⟨"b"⟩] false (fun n => if n = 0 then .error "boom" else .ok .null)).1.total) ∧
    (false = false → (bulkCreate [⟨"a"⟩, ⟨"b"⟩] false (fun n => if n = 0 then .error "boom" else .ok .null)).1.failed ≤ 1) ∧
    ((bulkSummaryOf (bulkCreate [⟨"a"⟩, ⟨"b"⟩] false (fun n => if n = 0 then .error "boom" else .ok .null)).1).success = true ↔
      (bulkCreate [⟨"a"⟩, ⟨"b"⟩] false (fun n => if n = 0 then .error "boom" else .ok .null)).1.failed = 0) := by
  have h := c9_bulk_summary_invariants [⟨"a"⟩, ⟨"b"⟩] false
    (fun n => if n = 0 then .error "boom" else .ok .null)
  simpa using h

theorem bulkCreateGo_attempts_prefix (outcome : Nat → Except String Json) :
    ∀ (items : List BulkItemInput) (i : Nat) (results : BulkResults) (attempts : List Nat)
      (j : Nat),
    j ∈ (bulkCreateGo outcome false items i results attempts).2 →
    j ∈ attempts ∨ (i ≤ j ∧ ∀ m, i ≤ m → m < j → ∃ v, outcome m = .ok v)
  | [], i, results, attempts, j, hj => .inl hj
  | item :: rest, i, results, attempts, j, hj => by
    cases hout : outcome i with
    | ok v =>
      simp only [bulkCreateGo, hout] at hj
      rcases bulkCreateGo_attempts_prefix outcome rest (i + 1) _ _ j hj with hmem | ⟨hle, hall⟩
      · rcases List.mem_append.mp hmem with hmem2 | hmem2
        · exact .inl hmem2
        · have hji : j = i := List.mem_singleton.mp hmem2
          subst hji
          exact .inr ⟨Nat.le_refl j, fun m hm1 hm2 => absurd hm2 (by omega)⟩
      · refine .inr ⟨by omega, fun m hm1 hm2 => ?_⟩
        by_cases hmi : m = i
        · exact ⟨v, hmi ▸ hout⟩
        · exact hall m (by omega) hm2
    | error e =>
      simp only [bulkCreateGo, hout, Bool.false_eq_true, if_false] at hj
      rcases List.mem_append.mp hj with hmem2 | hmem2
      · exact .inl hmem2
      · have hji : j = i := List.mem_singleton.mp hmem2
        subst hji
        exact .inr ⟨Nat.le_refl j, fun m hm1 hm2 => absurd hm2 (by omega)⟩

/-- C5: with `continueOnError = false`, a failing second item of five stops
the bulk-create loop right after item 2: the summary reports
`successful = 1`, `failed = 1`, `total = 5`, and create calls were attempted
exactly for items 0 and 1 (the remaining three items are never attempted);
and in general, with `continueOnError = false`, an item is attempted only if
every earlier item's create call succeeded. -/
theorem c5_bulk_create_stops_on_first_failure
    (raindrops : List BulkItemInput) (outcome : Nat → Except String Json)
    (hlen : raindrops.length = 5)
    (h0 : ∃ v, outcome 0 = .ok v) (h1 : ∃ e, outcome 1 = .error e) :
    ((bulkCreate raindrops false outcome).1.successful = 1 ∧
     (bulkCreate raindrops false outcome).1.failed = 1 ∧
     (bulkCreate raindrops false outcome).1.total = 5 ∧
     (bulkCreate raindrops false outcome).2 = [0, 1]) ∧
    (∀ (items2 : List BulkItemInput) (outcome2 : Nat → Except String Json) (j : Nat),
      j ∈ (bulkCreate items2 false outcome2).2 →
      ∀ m, m < j → ∃ v, outcome2 m = .ok v) := by
  constructor
  · obtain ⟨a, r1, rfl⟩ := List.exists_of_length_succ raindrops hlen
    have hlen1 : r1.length = 4 := by simpa using hlen
    obtain ⟨b, r2, rfl⟩ := List.exists_of_length_succ r1 hlen1
    have hlen2 : r2.length = 3 := by simpa using hlen1
    obtain ⟨c, r3, rfl⟩ := List.exists_of_length_succ r2 hlen2
    have hlen3 : r3.length = 2 := by simpa using hlen2
    obtain ⟨d, r4, rfl⟩ := List.exists_of_length_succ r3 hlen3
    have hlen4 : r4.length = 1 := by simpa using hlen3
    obtain ⟨e, r5, rfl⟩ := List.exists_of_length_succ r4 hlen4
    have hlen5 : r5.length = 0 := by simpa using hlen4
    obtain rfl := List.length_eq_zero.mp hlen5
    obtain ⟨v, hv⟩ := h0
    obtain ⟨er, her⟩ := h1
    simp [bulkCreate, bulkCreateGo, hv, her]
  · intro items2 outcome2 j hj m hm
    rcases bulkCreateGo_attempts_prefix outcome2 items2 0 _ [] j hj with hmem | ⟨_, hall⟩
    · exact absurd hmem (List.not_mem_nil j)
    · exact hall m (Nat.zero_le m) hm

/-- Witness for C5: five concrete items, item 0 succeeds, item 1 fails. -/
theorem c5_bulk_create_witness :
    (((bulkCreate [⟨"a"⟩, ⟨"b"⟩, ⟨"c"⟩, ⟨"d"⟩, ⟨"e"⟩] false
        (fun n => if n = 0 then .ok .null else .error "boom")).1.successful = 1 ∧
      (bulkCreate [⟨"a"⟩, ⟨"b"⟩, ⟨"c"⟩, ⟨"d"⟩, ⟨"e"⟩] false
        (fun n => if n = 0 then .ok .null else .error "boom")).1.failed = 1 ∧
      (bulkCreate [⟨"a"⟩, ⟨"b"⟩, ⟨"c"⟩, ⟨"d"⟩, ⟨"e"⟩] false
        (fun n => if n = 0 then .ok .null else .error "boom")).1.total = 5 ∧
      (bulkCreate [⟨"a"⟩, ⟨"b"⟩, ⟨"c"⟩, ⟨"d"⟩, ⟨"e"⟩] false
        (fun n => if n = 0 then .ok .null else .error "boom")).2 = [0, 1]) ∧
     (∀ (items2 : List BulkItemInput) (outcome2 : Nat → Except String Json) (j : Nat),
       j ∈ (bulkCreate items2 false outcome2).2 →
       ∀ m, m < j → ∃ v, outcome2 m = .ok v)) :=
  c5_bulk_create_stops_on_first_failure [⟨"a"⟩, ⟨"b"⟩, ⟨"c"⟩, ⟨"d"⟩, ⟨"e"⟩]
    (fun n => if n = 0 then .ok .null else .error "boom") rfl
    ⟨.null, rfl⟩ ⟨"boom", rfl⟩

/-! ## C2: watch-collection baseline -/

/-- C2 counterexample: the claim "a first watch call with no stored cursor,
no explicit `since` and no `resetWatch` returns `count 0` and `newItems []`
regardless of the items the remote fetch returns" is false as stated: the
code keeps every fetched item whose creation timestamp is strictly greater
than the call-time `now` (`created > sinceDate` with `checkSince = now`), so
a fetched item dated after `now` — for example a remote clock ahead of the
local one — is reported as new.  Concretely, with an empty cursor map,
`now = 100` and a single fetched item created at `101`, the call returns
`count = 1`. -/
theorem c2_first_watch_counterexample :
    List.lookup 7 ([] : WatchMap) = none ∧
    (watchCollection [] 7 none false 100 [⟨some 101⟩]).1.count ≠ 0 := by
  exact ⟨rfl, by decide⟩

/-- C2 (amended): for a collection id with no stored cursor, a watch call
with no explicit `since` and no `resetWatch` returns `count 0` and an empty
`newItems` list provided no fetched item has a creation timestamp strictly
after the call-time `now` (which holds for every remote result dated at or
before the call time), and after the call the cursor map stores `now` for
that collection id. -/
theorem c2_first_watch_baseline (watchTimestamps : WatchMap) (collectionId : Int)
    (now : Int) (fetchedItems : List WatchItem)
    (hcur : watchTimestamps.lookup collectionId = none)
    (hpast : ∀ it ∈ fetchedItems, ∀ c, it.created = some c → c ≤ now) :
    (watchCollection watchTimestamps collectionId none false now fetchedItems).1.count = 0 ∧
    (watchCollection watchTimestamps collectionId none false now fetchedItems).1.newItems = [] ∧
    (watchCollection watchTimestamps collectionId none false now
      fetchedItems).2.lookup collectionId = some now := by
  have hfilter : (fetchedItems.filter fun item =>
      match item.created with
      | some created => decide (created > ((watchTimestamps.lookup collectionId).getD now))
      | none => false) = [] := by
    rw [List.filter_eq_nil_iff]
    intro it hit
    cases hc : it.created with
    | none => simp
    | some c =>
      have hcle := hpast it hit c hc
      rw [hcur]
      simp only [Option.getD]
      simp
      omega
  simp only [watchCollection, hfilter]
  refine ⟨rfl, rfl, ?_⟩
  show List.lookup collectionId (assocSet watchTimestamps collectionId now) = some now
  rw [assocSet_lookup, if_pos rfl]

/-- Witness for the amended C2: empty cursor map, `now = 100`, two fetched
items (one created at 50, one with no parseable creation date). -/
theorem c2_first_watch_witness :
    (watchCollection [] 7 none false 100 [⟨some 50⟩, ⟨none⟩]).1.count = 0 ∧
    (watchCollection [] 7 none false 100 [⟨some 50⟩, ⟨none⟩]).1.newItems = [] ∧
    (watchCollection [] 7 none false 100 [⟨some 50⟩, ⟨none⟩]).2.lookup 7 = some 100 :=
  c2_first_watch_baseline [] 7 100 [⟨some 50⟩, ⟨none⟩] rfl
    (fun it hit c hc => by
      rcases List.mem_cons.mp hit with rfl | h2
      · have h3 : some (50 : Int) = some c := hc
        injection h3 with h50
        omega
      · rcases List.mem_singleton.mp h2 with rfl
        exact absurd hc (by simp))
